import Mathlib

/-!
Verification of the hierarchical section-structuring engine of the Janusz
document-to-YAML converter (`src/janusz/converter.py`), its extraction pass
(`src/janusz/extraction_patterns.py`) and the `Section` data model
(`src/janusz/models.py`).

Strings are modelled as `List Char`; a Python string `s` is embedded as
`s.data`.  Python's `str.strip`, `str.lower`, `str.isupper`, `in`
(substring), `"\n"`-split and `"\n"`-join are given executable models, and
the three heading regexes of `_parse_hierarchical_sections` are translated
by their matching semantics on the (already stripped) line.
-/

namespace Janusz

/-- Whitespace characters recognised by Python's `str.strip` and `\s`
(ASCII range). -/
def pyIsSpace (c : Char) : Bool :=
  c == ' ' || c == '\t' || c == '\n' || c == '\r' || c == '\x0b' || c == '\x0c'

/-- Python `str.strip()`: remove leading and trailing whitespace. -/
def pyStrip (l : List Char) : List Char :=
  ((l.dropWhile pyIsSpace).reverse.dropWhile pyIsSpace).reverse

/-- Auxiliary for `splitLines`. -/
def splitLinesAux : List Char → List Char → List (List Char)
  | [], acc => [acc.reverse]
  | c :: cs, acc =>
    if c == '\n' then acc.reverse :: splitLinesAux cs []
    else splitLinesAux cs (c :: acc)

/-- Python `text.split("\n")`: `converter.py` line 236. -/
def splitLines (l : List Char) : List (List Char) := splitLinesAux l []

/-- Python `str.lower()` (ASCII). -/
def pyLower (l : List Char) : List Char := l.map Char.toLower

/-- Python `str.isupper()`: at least one cased character and no lowercase
cased character (ASCII model). -/
def pyIsUpper (l : List Char) : Bool :=
  l.any (fun c => c.isAlpha) && l.all (fun c => !(c.isLower))

/-- `s.startswith(pat)` on character lists. -/
def startsWith : List Char → List Char → Bool
  | [], _ => true
  | _ :: _, [] => false
  | p :: ps, c :: cs => p == c && startsWith ps cs

/-- Python substring test `pat in s`. -/
def containsSub (pat : List Char) : List Char → Bool
  | [] => pat.isEmpty
  | c :: cs => startsWith pat (c :: cs) || containsSub pat cs

/-- Python `"sep".join(parts)`. -/
def joinWith (sep : List Char) : List (List Char) → List Char
  | [] => []
  | [x] => x
  | x :: y :: rest => x ++ sep ++ joinWith sep (y :: rest)

/-- Decimal digit character. -/
def digitChar (n : Nat) : Char := Char.ofNat (48 + n)

/-- Fuel-driven decimal rendering of a natural number (the fuel `n + 1`
always suffices). -/
def natCharsAux : Nat → Nat → List Char → List Char
  | 0, _, acc => acc
  | fuel + 1, n, acc =>
    if n < 10 then digitChar n :: acc
    else natCharsAux fuel (n / 10) (digitChar (n % 10) :: acc)

/-- Decimal rendering of a natural number, as in Python `f"{n}"`. -/
def natChars (n : Nat) : List Char := natCharsAux (n + 1) n []

/-- The id string `f"section_{n}"`: `converter.py` lines 261, 281, 300. -/
def sectionIdStr (n : Nat) : List Char := "section_".data ++ natChars n

/-!
## The heading classifier

`_parse_hierarchical_sections` (converter.py lines 248-308) tries, on the
stripped line, first the Markdown regex `^(#{1,6})\s+(.+)`, then the
numbered regex `^\d+\.\s+.+$`, then the ALL-CAPS test
`len(line) < 100 and line.isupper() and not line.endswith('.')`.
-/

/-- Match of `re.match(r'^(#{1,6})\s+(.+)', line)` together with
`level = len(group(1))` and `title = group(2).strip()`.  The regex engine
matches a run of 1-6 `#` only when not followed by a further `#` (greedy
with backtracking always re-hits the `#`), then needs at least one
whitespace character and at least one further character. -/
def mdHeading (line : List Char) : Option (Nat × List Char) :=
  let k := (line.takeWhile (· == '#')).length
  if 1 ≤ k ∧ k ≤ 6 then
    match line.drop k with
    | [] => none
    | c :: rest =>
      if pyIsSpace c ∧ 1 ≤ rest.length then
        some (k, pyStrip ((c :: rest).dropWhile pyIsSpace))
      else none
  else none

/-- Match of `re.match(r'^\d+\.\s+.+$', line)`: digits, a dot, whitespace,
and at least one further character. -/
def numberedHeading (line : List Char) : Bool :=
  let d := (line.takeWhile Char.isDigit).length
  1 ≤ d &&
    (match line.drop d with
     | '.' :: c :: rest => pyIsSpace c && 1 ≤ rest.length
     | _ => false)

/-- The ALL-CAPS heading test of converter.py line 291. -/
def allCapsTitle (line : List Char) : Bool :=
  line.length < 100 && pyIsUpper line && !(line.getLast? == some '.')

/-- The heading classifier: the three header patterns of
`_parse_hierarchical_sections` in their source order, applied to the
already-stripped line.  Numbered and ALL-CAPS headings get level 1 and keep
the whole line as title. -/
def classifyLine (line : List Char) : Option (Nat × List Char) :=
  match mdHeading line with
  | some r => some r
  | none =>
    if numberedHeading line then some (1, line)
    else if allCapsTitle line then some (1, line)
    else none


/-!
## The Section data model

`models.py` lines 30-38 / the section dictionaries of converter.py
lines 260-267: fields `id`, `title`, `level`, `content`, `subsections`,
`children`.  The actual child list of the hierarchy is `subsections`
(converter.py line 330); `children` is created empty and never filled.
`Sec`/`SecList` form a mutual pair because Lean 4.14 does not support
structural recursion over a nested `List Sec`.
-/

mutual
inductive Sec : Type where
  | mk (id : List Char) (title : List Char) (level : Nat)
       (content : List (List Char)) (subsections : SecList)
       (children : SecList) : Sec
inductive SecList : Type where
  | nil : SecList
  | cons (s : Sec) (rest : SecList) : SecList
end

def Sec.id : Sec → List Char
  | .mk i _ _ _ _ _ => i

def Sec.title : Sec → List Char
  | .mk _ t _ _ _ _ => t

def Sec.level : Sec → Nat
  | .mk _ _ l _ _ _ => l

def Sec.content : Sec → List (List Char)
  | .mk _ _ _ c _ _ => c

def Sec.subsections : Sec → SecList
  | .mk _ _ _ _ subs _ => subs

def Sec.children : Sec → SecList
  | .mk _ _ _ _ _ ch => ch

def SecList.toList : SecList → List Sec
  | .nil => []
  | .cons s rest => s :: rest.toList

def SecList.append : SecList → SecList → SecList
  | .nil, ys => ys
  | .cons x xs, ys => .cons x (xs.append ys)

def SecList.ofList : List Sec → SecList
  | [] => .nil
  | s :: rest => .cons s (SecList.ofList rest)

/-- Spine induction principle for `SecList` (the mutual recursor of
`SecList` has two motives, which the `induction` tactic cannot use). -/
def SecList.spineInd {motive : SecList → Prop} (base : motive .nil)
    (step : ∀ s rest, motive rest → motive (.cons s rest)) :
    ∀ l : SecList, motive l
  | .nil => base
  | .cons s rest => step s rest (SecList.spineInd base step rest)

/-!
## The hierarchy builder

Python builds the tree by mutating shared dictionaries: the stack
`section_stack` holds references to the same dictionaries that sit in
`sections` (the root list) or in a parent's `subsections`.  The pure
embedding replaces each still-open dictionary by a `Frame` holding the
fields written so far; a frame is turned into a `Sec` when it can no
longer be touched (when it is popped, or at end of input).  Attaching a
child to `parent["subsections"]` (converter.py line 330) therefore happens
when the child closes instead of when it is created; the resulting tree is
the same because a child closes before its next sibling is created.
-/

/-- A still-open section: the dictionary of converter.py lines 260-267
while it is still reachable from `section_stack`.  `closed` holds the
subsections that are already complete. -/
structure Frame where
  id : List Char
  title : List Char
  level : Nat
  content : List (List Char)
  closed : SecList

/-- Close an open section: no further content or children can attach.
`children` is the always-empty list of converter.py line 266. -/
def Frame.close (f : Frame) : Sec :=
  .mk f.id f.title f.level f.content f.closed .nil

/-- Record a completed child in `parent["subsections"]`
(converter.py line 330). -/
def Frame.attach (g : Frame) (s : Sec) : Frame :=
  { g with closed := g.closed.append (.cons s .nil) }

/-- Parser state: `sections` are the completed root sections (the Python
`sections` list minus its still-open last element, which lives at the
bottom of `stack`), `stack` is `section_stack` with its top first, and
`current` is `current_content`. -/
structure PState where
  sections : List Sec
  stack : List Frame
  current : List (List Char)

/-- `_save_current_content` (converter.py lines 337-348): append the
non-blank buffered lines to the content of the deepest open section; do
nothing when the buffer or the stack is empty. -/
def saveCurrentContent (stack : List Frame) (current : List (List Char)) :
    List Frame :=
  match stack with
  | [] => []
  | f :: rest =>
    if current.isEmpty then f :: rest
    else
      let contentLines := current.filter (fun l => !(pyStrip l).isEmpty)
      if contentLines.isEmpty then f :: rest
      else { f with content := f.content ++ contentLines } :: rest

/-- Pop and close open sections, the closed section `pending` of the
previously popped frame in hand: `pending` becomes the last subsection of
the next frame down, which is itself popped when its level is still
`≥ level`.  When the stack runs out, `pending` is a completed root. -/
def popAux (level : Nat) (pending : Sec) :
    List Sec → List Frame → List Sec × List Frame
  | roots, [] => (roots ++ [pending], [])
  | roots, g :: rest =>
    if level ≤ g.level then popAux level (g.attach pending).close roots rest
    else (roots, g.attach pending :: rest)

/-- The `while section_stack and section_stack[-1]["level"] >= level` loop
of `_add_section_to_hierarchy` (converter.py lines 323-325). -/
def popStack (level : Nat) (roots : List Sec) (stack : List Frame) :
    List Sec × List Frame :=
  match stack with
  | [] => (roots, [])
  | f :: rest =>
    if level ≤ f.level then popAux level f.close roots rest
    else (roots, f :: rest)

/-- `_add_section_to_hierarchy` (converter.py lines 320-335): pop open
sections of level `≥ level`, then push the new section (its attachment to
the parent's `subsections` or to the root list happens when it closes). -/
def addSectionToHierarchy (roots : List Sec) (stack : List Frame)
    (f : Frame) (level : Nat) : List Sec × List Frame :=
  let popped := popStack level roots stack
  (popped.1, f :: popped.2)

/-- The common body of the three header branches of
`_parse_hierarchical_sections` (converter.py lines 250-270, 273-289,
291-308): flush the buffer, create the section dictionary with id
`f"section_{len(sections)}"` — `len(sections)` counts the created root
sections, i.e. the completed roots plus the open root at the bottom of the
stack — and hand it to `_add_section_to_hierarchy`. -/
def startSection (st : PState) (level : Nat) (title : List Char) : PState :=
  let stack1 := saveCurrentContent st.stack st.current
  let sid := sectionIdStr (st.sections.length + (if st.stack.isEmpty then 0 else 1))
  let f : Frame := ⟨sid, title, level, [], .nil⟩
  let added := addSectionToHierarchy st.sections stack1 f level
  ⟨added.1, added.2, []⟩

/-- The loop body of `_parse_hierarchical_sections` (converter.py
lines 241-312): strip the line; a blank line extends a non-empty buffer by
`""`; a header line starts a section; anything else is buffered content. -/
def processLine (st : PState) (rawLine : List Char) : PState :=
  let line := pyStrip rawLine
  if line.isEmpty then
    if st.current.isEmpty then st else { st with current := st.current ++ [[]] }
  else
    match classifyLine line with
    | some lt => startSection st lt.1 lt.2
    | none => { st with current := st.current ++ [line] }

/-- End of the loop (converter.py lines 314-315): final
`_save_current_content`, then the remaining open sections are closed
(`popStack 0` closes every frame, since every level is `≥ 0`; Python needs
no such step only because it attached the dictionaries eagerly). -/
def finishState (st : PState) : List Sec :=
  (popStack 0 st.sections (saveCurrentContent st.stack st.current)).1

/-- The hierarchical `sections` forest built by
`_parse_hierarchical_sections` before the final flattening call
(converter.py lines 236-315). -/
def parseForest (text : List Char) : List Sec :=
  finishState ((splitLines text).foldl processLine ⟨[], [], []⟩)

mutual
/-- One step of `flatten_recursive` (converter.py lines 354-369): emit the
flat copy — which carries the very same six fields, hence equals the
section itself — then recurse into `subsections` when non-empty. -/
def flattenOne : Sec → List Sec
  | .mk i t l c subs ch =>
    .mk i t l c subs ch ::
      (match subs with
       | .nil => []
       | .cons a b => flattenSecList (.cons a b))
/-- `flatten_recursive` over a `SecList`. -/
def flattenSecList : SecList → List Sec
  | .nil => []
  | .cons s rest => flattenOne s ++ flattenSecList rest
end

/-- `_flatten_sections_hierarchy` (converter.py lines 350-372) applied to
the root list. -/
def flattenSectionsHierarchy : List Sec → List Sec
  | [] => []
  | s :: rest => flattenOne s ++ flattenSectionsHierarchy rest

/-- `_parse_hierarchical_sections` (converter.py lines 230-318): build the
hierarchy, then return its flattened (pre-order) compatibility view. -/
def parseHierarchicalSections (text : List Char) : List Sec :=
  flattenSectionsHierarchy (parseForest text)

/-- All content lines of the listed sections, in order. -/
def sectionContents : List Sec → List (List Char)
  | [] => []
  | s :: rest => s.content ++ sectionContents rest

/-- The empty-input guard of `convert_to_yaml` (converter.py
lines 408-418): when the extracted text is empty the conversion reports
failure (`return False`, modelled as `none`) without structuring;
otherwise structuring runs and a document is produced. -/
def convertToYaml (text : List Char) : Option (List Sec) :=
  if text.isEmpty then none else some (parseHierarchicalSections text)

/-!
## The annotation pass

`extract_best_practices_and_examples` (extraction_patterns.py lines
17-96) with its helpers `_extract_items_from_section` and
`_extract_context`.  The apostrophe character of the trigger phrases is
written `Char.ofNat 39`.
-/

/-- `ExtractionItem` (models.py lines 47-52), the fields used by the
extraction pass. -/
structure ExtractionItem where
  text : List Char
  source_section_id : Option (List Char)
  tags : List (List Char)
  confidence_level : List Char
deriving DecidableEq

/-- The apostrophe character. -/
def apos : Char := Char.ofNat 39

/-- Title triggers for best-practice sections
(extraction_patterns.py line 47). -/
def bpTitleKeywords : List (List Char) :=
  ["best practice".data, "recommendation".data, "guideline".data,
   "dos and don".data ++ [apos] ++ "ts".data]

/-- Title triggers for example sections (extraction_patterns.py
line 52). -/
def exTitleKeywords : List (List Char) :=
  ["example".data, "sample".data, "demo".data, "usage".data]

/-- Line-level best-practice triggers (extraction_patterns.py
lines 68-71). -/
def bpLinePatterns : List (List Char) :=
  ["recommend".data, "should".data, "must".data, "always".data,
   "never".data, "avoid".data, "best practice".data, "good practice".data,
   "do not".data, "don".data ++ [apos] ++ "t".data]

/-- Line-level example triggers (extraction_patterns.py lines 83-86). -/
def exLinePatterns : List (List Char) :=
  ["for example".data, "e.g.".data, "such as".data, "like this".data,
   "sample".data, "here is".data, "consider".data, "imagine".data,
   "suppose".data]

/-- `_extract_context` (extraction_patterns.py lines 143-154): the
stripped non-blank lines in the window around `centerLine`, joined with
newlines. -/
def extractContext (lines : List (List Char)) (centerLine : Nat)
    (contextLines : Nat) : List Char :=
  let start := centerLine - contextLines
  let stop := min lines.length (centerLine + contextLines + 1)
  let window := (lines.drop start).take (stop - start)
  joinWith ['\n'] ((window.map pyStrip).filter (fun l => !l.isEmpty))

/-- The character class `[-*â€¢]` of the list-item regex
(extraction_patterns.py line 112); the source file carries the bullet as
the three mojibake characters 0xE2, 0x20AC, 0xA2. -/
def bulletChar (c : Char) : Bool :=
  c == '-' || c == '*' || c == Char.ofNat 0xE2 || c == Char.ofNat 0x20AC ||
    c == Char.ofNat 0xA2

/-- `^\d+\.\s` at the start of a line. -/
def numDotSpaceStart (l : List Char) : Bool :=
  let d := (l.takeWhile Char.isDigit).length
  1 ≤ d && (match l.drop d with | '.' :: c :: _ => pyIsSpace c | _ => false)

/-- `^\(\d+\)\s` at the start of a line. -/
def parenNumSpaceStart : List Char → Bool
  | '(' :: rest =>
    let d := (rest.takeWhile Char.isDigit).length
    1 ≤ d && (match rest.drop d with | ')' :: c :: _ => pyIsSpace c | _ => false)
  | _ => false

/-- The list-item regex `^[-*â€¢]\s|^(\d+\.|\(\d+\))\s|^-\s`
(extraction_patterns.py line 112). -/
def listItemStart (l : List Char) : Bool :=
  (match l with | c :: d :: _ => bulletChar c && pyIsSpace d | _ => false) ||
    numDotSpaceStart l || parenNumSpaceStart l

/-- An item emitted by `_extract_items_from_section`
(extraction_patterns.py lines 113-120, 131-138). -/
def mkSectionItem (sectionId itemType : List Char)
    (currentItem : List (List Char)) : ExtractionItem :=
  ⟨joinWith ['\n'] currentItem, some sectionId,
   [itemType, "section_based".data], "high".data⟩

/-- The line loop of `_extract_items_from_section` (extraction_patterns.py
lines 108-129), threading `items` and `current_item`. -/
def extractItemsLoop (sectionId itemType : List Char) :
    List (List Char) → List ExtractionItem → List (List Char) →
    List ExtractionItem × List (List Char)
  | [], items, currentItem => (items, currentItem)
  | rawLine :: rest, items, currentItem =>
    let line := pyStrip rawLine
    if listItemStart line then
      if currentItem.isEmpty then
        extractItemsLoop sectionId itemType rest items [line]
      else
        extractItemsLoop sectionId itemType rest
          (items ++ [mkSectionItem sectionId itemType currentItem]) [line]
    else if !line.isEmpty && !currentItem.isEmpty then
      extractItemsLoop sectionId itemType rest items (currentItem ++ [line])
    else if !line.isEmpty && currentItem.isEmpty then
      extractItemsLoop sectionId itemType rest items [line]
    else
      extractItemsLoop sectionId itemType rest items currentItem

/-- `_extract_items_from_section` (extraction_patterns.py lines 99-140). -/
def extractItemsFromSection (content itemType sectionId : List Char) :
    List ExtractionItem :=
  let res := extractItemsLoop sectionId itemType (splitLines content) [] []
  if res.2.isEmpty then res.1
  else res.1 ++ [mkSectionItem sectionId itemType res.2]

/-- Pattern 1 of `extract_best_practices_and_examples`
(extraction_patterns.py lines 31-54): iterate the flat section list with
enumeration index `i`, key each entry by the recomputed string
`f"section_{i}"`, and run the section-title triggers. -/
def sectionBasedPass (i : Nat) :
    List Sec → List ExtractionItem × List ExtractionItem
  | [] => ([], [])
  | s :: rest =>
    let sid := sectionIdStr i
    let titleLower := pyLower s.title
    let content := joinWith [' '] s.content
    let cur : List ExtractionItem × List ExtractionItem :=
      if bpTitleKeywords.any (fun k => containsSub k titleLower) then
        (extractItemsFromSection content "best_practice".data sid, [])
      else if exTitleKeywords.any (fun k => containsSub k titleLower) then
        ([], extractItemsFromSection content "example".data sid)
      else ([], [])
    let restRes := sectionBasedPass (i + 1) rest
    (cur.1 ++ restRes.1, cur.2 ++ restRes.2)

/-- The section-tracking regex `^#{1,6}|\d+\.|\w+:$` of Pattern 2
(extraction_patterns.py line 64): a leading `#`, or leading digits
followed by a dot, or a whole line of word characters ending in a
colon. -/
def trackSectionLine (line : List Char) : Bool :=
  (match line with | '#' :: _ => true | _ => false) ||
    (let d := (line.takeWhile Char.isDigit).length
     1 ≤ d && (match line.drop d with | '.' :: _ => true | _ => false)) ||
    (match line.reverse with
     | ':' :: rest => !rest.isEmpty && rest.all (fun c => c.isAlphanum || c == '_')
     | _ => false)

/-- Pattern 2 of `extract_best_practices_and_examples`
(extraction_patterns.py lines 56-94): scan the raw lines with index `i`,
set `current_section_id = f"section_{i}"` on every tracking line, and emit
medium-confidence items with the surrounding context for trigger-phrase
hits. -/
def contentBasedPass (lines : List (List Char)) :
    Nat → Option (List Char) → List (List Char) →
    List ExtractionItem × List ExtractionItem
  | _, _, [] => ([], [])
  | i, csid, line :: rest =>
    let csid1 := if trackSectionLine line then some (sectionIdStr i) else csid
    let lineLower := pyStrip (pyLower line)
    let cur : List ExtractionItem × List ExtractionItem :=
      if bpLinePatterns.any (fun p => containsSub p lineLower) then
        let context := extractContext lines i 2
        if !(pyStrip context).isEmpty then
          ([⟨pyStrip context, csid1, ["content_pattern".data], "medium".data⟩], [])
        else ([], [])
      else if exLinePatterns.any (fun p => containsSub p lineLower) then
        let context := extractContext lines i 3
        if !(pyStrip context).isEmpty then
          ([], [⟨pyStrip context, csid1, ["content_pattern".data], "medium".data⟩])
        else ([], [])
      else ([], [])
    let restRes := contentBasedPass lines (i + 1) csid1 rest
    (cur.1 ++ restRes.1, cur.2 ++ restRes.2)

/-- `extract_best_practices_and_examples` (extraction_patterns.py
lines 17-96): the section-based pass followed by the content-based pass,
each contributing to the best-practice and example lists in order. -/
def extractBestPracticesAndExamples (text : List Char) (sections : List Sec) :
    List ExtractionItem × List ExtractionItem :=
  let p1 := sectionBasedPass 0 sections
  let lines := splitLines text
  let p2 := contentBasedPass lines 0 none lines
  (p1.1 ++ p2.1, p1.2 ++ p2.2)

/-- The input on which the section attribution of the annotation pass goes
wrong. -/
def c9text : List Char := "# A\ntext\n# B\nyou should x".data

/-!
## Collectors and invariants used by the universal theorems
-/

/-- All content lines of the sections of a subsection list, collected
through the flattened (pre-order) view, which visits every node. -/
def secListContents (sl : SecList) : List (List Char) :=
  sectionContents (flattenSecList sl)

/-- The `(level, title)` pairs of the flattened view of a root list. -/
def secInfos (l : List Sec) : List (Nat × List Char) :=
  (flattenSectionsHierarchy l).map (fun s => (s.level, s.title))

/-- The `(level, title)` pairs of one flattened section. -/
def oneInfos (s : Sec) : List (Nat × List Char) :=
  (flattenOne s).map (fun x => (x.level, x.title))

/-- The `(level, title)` pairs of a flattened subsection list. -/
def slInfos (sl : SecList) : List (Nat × List Char) :=
  (flattenSecList sl).map (fun s => (s.level, s.title))

/-- Pre-order `(level, title)` pairs of the tree a stack will close into,
bottom frame first: each frame contributes itself, then its completed
subsections; the frames above it are its last pre-order descendants. -/
def stackInfos : List Frame → List (Nat × List Char)
  | [] => []
  | f :: rest => stackInfos rest ++ (f.level, f.title) :: slInfos f.closed

/-- Pre-order `(level, title)` pairs of the forest a parser state will
finish into. -/
def stateInfos (st : PState) : List (Nat × List Char) :=
  secInfos st.sections ++ stackInfos st.stack

/-- The `(level, title)` pairs of the heading lines of `ls`, in source
order: one entry per line accepted by the classifier after stripping. -/
def headingInfos (ls : List (List Char)) : List (Nat × List Char) :=
  ls.filterMap (fun l => classifyLine (pyStrip l))

/-- A line is strip-fixed when stripping changes nothing (no leading or
trailing whitespace survives in it). -/
def StripFixed (c : List Char) : Prop := pyStrip c = c

/-- All content lines in the live fields of a frame are strip-fixed. -/
def FrameStripped (f : Frame) : Prop :=
  (∀ c ∈ f.content, StripFixed c) ∧ ∀ c ∈ secListContents f.closed, StripFixed c

/-- All content lines anywhere in a parser state are strip-fixed. -/
def StateStripped (st : PState) : Prop :=
  (∀ c ∈ st.current, StripFixed c) ∧ (∀ f ∈ st.stack, FrameStripped f) ∧
    ∀ c ∈ sectionContents (flattenSectionsHierarchy st.sections), StripFixed c

/-!
## Helper lemmas
-/

theorem flattenOne_eq (s : Sec) :
    flattenOne s = s :: flattenSecList s.subsections := by
  cases s with
  | mk i t l c subs ch => cases subs <;> rfl

theorem flattenSecList_cons (s : Sec) (rest : SecList) :
    flattenSecList (.cons s rest) = flattenOne s ++ flattenSecList rest := rfl

theorem flattenSecList_append (a b : SecList) :
    flattenSecList (a.append b) = flattenSecList a ++ flattenSecList b := by
  induction a using SecList.spineInd with
  | base => rfl
  | step s rest ih => simp [SecList.append, flattenSecList_cons, ih]

theorem flattenHier_cons (s : Sec) (rest : List Sec) :
    flattenSectionsHierarchy (s :: rest) =
      flattenOne s ++ flattenSectionsHierarchy rest := rfl

theorem flattenHier_append (a b : List Sec) :
    flattenSectionsHierarchy (a ++ b) =
      flattenSectionsHierarchy a ++ flattenSectionsHierarchy b := by
  induction a with
  | nil => rfl
  | cons s rest ih => simp [flattenHier_cons, ih]

theorem sectionContents_append (a b : List Sec) :
    sectionContents (a ++ b) = sectionContents a ++ sectionContents b := by
  induction a with
  | nil => rfl
  | cons s rest ih => simp [sectionContents, ih]

theorem dropWhile_idem (p : Char → Bool) (l : List Char) :
    List.dropWhile p (List.dropWhile p l) = List.dropWhile p l := by
  induction l with
  | nil => rfl
  | cons c cs ih =>
    by_cases hc : p c
    · simp [List.dropWhile_cons, hc, ih]
    · simp [List.dropWhile_cons, hc]

theorem dropWhile_eq_self_of_head? (p : Char → Bool) (l : List Char)
    (h : ∀ c, l.head? = some c → p c = false) :
    List.dropWhile p l = l := by
  cases l with
  | nil => rfl
  | cons c cs => simp [List.dropWhile_cons, h c rfl]

theorem getLast?_dropWhile (p : Char → Bool) (l : List Char)
    (h : List.dropWhile p l ≠ []) :
    (List.dropWhile p l).getLast? = l.getLast? := by
  induction l with
  | nil => simp at h
  | cons c cs ih =>
    by_cases hc : p c
    · rw [List.dropWhile_cons, if_pos hc] at h ⊢
      rw [ih h]
      have hcs : cs ≠ [] := by
        intro he
        rw [he] at h
        exact h rfl
      cases cs with
      | nil => exact absurd rfl hcs
      | cons d ds => rfl
    · rw [List.dropWhile_cons, if_neg hc]

theorem pyStrip_idem (l : List Char) : pyStrip (pyStrip l) = pyStrip l := by
  unfold pyStrip
  set u := (l.dropWhile pyIsSpace).reverse.dropWhile pyIsSpace with hu
  have h1 : List.dropWhile pyIsSpace u.reverse = u.reverse := by
    apply dropWhile_eq_self_of_head?
    intro c hc
    have hne : u ≠ [] := by
      intro he
      rw [he] at hc
      simp at hc
    have h2 : u.reverse.head? = u.getLast? := List.head?_reverse u
    have h3 : u.getLast? = (l.dropWhile pyIsSpace).reverse.getLast? :=
      getLast?_dropWhile _ _ (by rw [← hu]; exact hne)
    have h4 : (l.dropWhile pyIsSpace).reverse.getLast? =
        (l.dropWhile pyIsSpace).head? := List.getLast?_reverse _
    have h5 : (l.dropWhile pyIsSpace).head? = some c := by
      rw [← h4, ← h3, ← h2, hc]
    have h6 := List.head?_dropWhile_not pyIsSpace l
    rw [h5] at h6
    exact h6
  rw [h1, List.reverse_reverse, dropWhile_idem]

theorem secInfos_append (a b : List Sec) :
    secInfos (a ++ b) = secInfos a ++ secInfos b := by
  simp [secInfos, flattenHier_append]

theorem slInfos_append (a b : SecList) :
    slInfos (a.append b) = slInfos a ++ slInfos b := by
  simp [slInfos, flattenSecList_append]

theorem slInfos_single (s : Sec) :
    slInfos (.cons s .nil) = oneInfos s := by
  simp [slInfos, flattenSecList_cons, flattenSecList, oneInfos]

theorem secInfos_single (s : Sec) : secInfos [s] = oneInfos s := by
  simp [secInfos, flattenHier_cons, flattenSectionsHierarchy, oneInfos]

theorem oneInfos_close (f : Frame) :
    oneInfos f.close = (f.level, f.title) :: slInfos f.closed := by
  rw [oneInfos, flattenOne_eq]
  simp [Frame.close, Sec.level, Sec.title, Sec.subsections, slInfos]

theorem oneInfos_attach_close (g : Frame) (s : Sec) :
    oneInfos (g.attach s).close =
      (g.level, g.title) :: (slInfos g.closed ++ oneInfos s) := by
  rw [oneInfos_close]
  simp [Frame.attach, slInfos_append, slInfos_single]

theorem popAux_infos (level : Nat) (stack : List Frame) :
    ∀ (roots : List Sec) (pending : Sec),
      secInfos (popAux level pending roots stack).1 ++
          stackInfos (popAux level pending roots stack).2 =
        secInfos roots ++ stackInfos stack ++ oneInfos pending := by
  induction stack with
  | nil =>
    intro roots pending
    simp [popAux, stackInfos, secInfos_append, secInfos_single]
  | cons g rest ih =>
    intro roots pending
    by_cases hle : level ≤ g.level
    · rw [popAux, if_pos hle, ih, oneInfos_attach_close]
      simp [stackInfos]
    · rw [popAux, if_neg hle]
      simp [stackInfos, Frame.attach, slInfos_append, slInfos_single]

theorem popStack_infos (level : Nat) (roots : List Sec) (stack : List Frame) :
    secInfos (popStack level roots stack).1 ++
        stackInfos (popStack level roots stack).2 =
      secInfos roots ++ stackInfos stack := by
  cases stack with
  | nil => simp [popStack, stackInfos]
  | cons f rest =>
    by_cases hle : level ≤ f.level
    · rw [popStack, if_pos hle, popAux_infos, oneInfos_close]
      simp [stackInfos]
    · rw [popStack, if_neg hle]

theorem saveCurrentContent_nil (cur : List (List Char)) :
    saveCurrentContent [] cur = [] := rfl

theorem stackInfos_save (stack : List Frame) (cur : List (List Char)) :
    stackInfos (saveCurrentContent stack cur) = stackInfos stack := by
  cases stack with
  | nil => rfl
  | cons f rest =>
    simp only [saveCurrentContent]
    split_ifs <;> simp [stackInfos]

theorem popAux_zero_snd (stack : List Frame) :
    ∀ (roots : List Sec) (pending : Sec),
      (popAux 0 pending roots stack).2 = [] := by
  induction stack with
  | nil => intro roots pending; rfl
  | cons g rest ih =>
    intro roots pending
    rw [popAux, if_pos (Nat.zero_le _)]
    exact ih _ _

theorem popStack_zero_snd (roots : List Sec) (stack : List Frame) :
    (popStack 0 roots stack).2 = [] := by
  cases stack with
  | nil => rfl
  | cons f rest =>
    rw [popStack, if_pos (Nat.zero_le _)]
    exact popAux_zero_snd _ _ _

theorem secInfos_finishState (st : PState) :
    secInfos (finishState st) = stateInfos st := by
  unfold finishState
  have h1 := popStack_infos 0 st.sections (saveCurrentContent st.stack st.current)
  rw [popStack_zero_snd] at h1
  simp only [stackInfos, List.append_nil] at h1
  rw [h1, stackInfos_save, stateInfos]

theorem classifyLine_nil : classifyLine [] = none := by decide

theorem stateInfos_processLine (st : PState) (l : List Char) :
    stateInfos (processLine st l) =
      stateInfos st ++ (classifyLine (pyStrip l)).toList := by
  simp only [processLine]
  by_cases hb : (pyStrip l).isEmpty
  · have hnil : pyStrip l = [] := by simpa using hb
    rw [if_pos hb, hnil, classifyLine_nil]
    split_ifs <;> simp [stateInfos]
  · rw [if_neg hb]
    cases hc : classifyLine (pyStrip l) with
    | none => simp [stateInfos]
    | some lt =>
      simp only [startSection, addSectionToHierarchy, stateInfos, stackInfos,
        slInfos, flattenSecList, List.map_nil, Option.toList]
      rw [← List.append_assoc, popStack_infos, stackInfos_save]

theorem stateInfos_foldl (ls : List (List Char)) :
    ∀ st : PState,
      stateInfos (ls.foldl processLine st) = stateInfos st ++ headingInfos ls := by
  induction ls with
  | nil => intro st; simp [headingInfos]
  | cons l rest ih =>
    intro st
    rw [List.foldl_cons, ih, stateInfos_processLine]
    simp only [headingInfos, List.filterMap_cons]
    cases hc : classifyLine (pyStrip l) <;> simp [hc]

theorem flattenHier_head? (l : List Sec) :
    (flattenSectionsHierarchy l).head? = l.head? := by
  cases l with
  | nil => rfl
  | cons s rest => rw [flattenHier_cons, flattenOne_eq]; rfl

theorem processLine_no_heading (st : PState) (l : List Char)
    (h : classifyLine (pyStrip l) = none) :
    (processLine st l).sections = st.sections ∧
      (processLine st l).stack = st.stack := by
  simp only [processLine]
  by_cases hb : (pyStrip l).isEmpty
  · rw [if_pos hb]
    split_ifs <;> simp
  · rw [if_neg hb, h]
    exact ⟨rfl, rfl⟩

theorem foldl_no_heading (ls : List (List Char)) :
    ∀ st : PState, (∀ l ∈ ls, classifyLine (pyStrip l) = none) →
      (ls.foldl processLine st).sections = st.sections ∧
        (ls.foldl processLine st).stack = st.stack := by
  induction ls with
  | nil => intro st _; exact ⟨rfl, rfl⟩
  | cons l rest ih =>
    intro st h
    rw [List.foldl_cons]
    have h1 := processLine_no_heading st l (h l (by simp))
    have h2 := ih (processLine st l) (fun x hx => h x (by simp [hx]))
    exact ⟨h2.1.trans h1.1, h2.2.trans h1.2⟩

theorem secListContents_append (a b : SecList) :
    secListContents (a.append b) = secListContents a ++ secListContents b := by
  simp [secListContents, flattenSecList_append, sectionContents_append]

theorem secListContents_single (s : Sec) :
    secListContents (.cons s .nil) = sectionContents (flattenOne s) := by
  simp [secListContents, flattenSecList_cons, flattenSecList]

theorem sectionContents_flattenOne_close (f : Frame) :
    sectionContents (flattenOne f.close) = f.content ++ secListContents f.closed := by
  rw [flattenOne_eq]
  simp [Frame.close, sectionContents, Sec.content, Sec.subsections, secListContents]

theorem frameStripped_attach (g : Frame) (s : Sec) (hg : FrameStripped g)
    (hs : ∀ c ∈ sectionContents (flattenOne s), StripFixed c) :
    FrameStripped (g.attach s) := by
  refine ⟨hg.1, ?_⟩
  intro c hc
  simp only [Frame.attach] at hc
  rw [secListContents_append, secListContents_single] at hc
  rcases List.mem_append.mp hc with h | h
  · exact hg.2 c h
  · exact hs c h

theorem popAux_stripped (level : Nat) (stack : List Frame) :
    ∀ (roots : List Sec) (pending : Sec),
      (∀ c ∈ sectionContents (flattenSectionsHierarchy roots), StripFixed c) →
      (∀ f ∈ stack, FrameStripped f) →
      (∀ c ∈ sectionContents (flattenOne pending), StripFixed c) →
      (∀ c ∈ sectionContents
          (flattenSectionsHierarchy (popAux level pending roots stack).1),
        StripFixed c) ∧
        ∀ f ∈ (popAux level pending roots stack).2, FrameStripped f := by
  induction stack with
  | nil =>
    intro roots pending hr _ hp
    refine ⟨?_, by simp [popAux]⟩
    simp only [popAux]
    intro c hc
    rw [flattenHier_append, sectionContents_append] at hc
    rcases List.mem_append.mp hc with h | h
    · exact hr c h
    · exact hp c (by simpa [flattenHier_cons, flattenSectionsHierarchy] using h)
  | cons g rest ih =>
    intro roots pending hr hf hp
    by_cases hle : level ≤ g.level
    · rw [popAux, if_pos hle]
      apply ih roots _ hr (fun x hx => hf x (List.mem_cons_of_mem _ hx))
      intro c hc
      rw [sectionContents_flattenOne_close] at hc
      have hga : FrameStripped (g.attach pending) :=
        frameStripped_attach g pending (hf g (List.mem_cons_self _ _)) hp
      rcases List.mem_append.mp hc with h | h
      · exact hga.1 c h
      · exact hga.2 c h
    · rw [popAux, if_neg hle]
      refine ⟨hr, ?_⟩
      intro f hfm
      rcases List.mem_cons.mp hfm with rfl | hm
      · exact frameStripped_attach g pending (hf g (List.mem_cons_self _ _)) hp
      · exact hf _ (List.mem_cons_of_mem _ hm)

theorem popStack_stripped (level : Nat) (roots : List Sec) (stack : List Frame)
    (hr : ∀ c ∈ sectionContents (flattenSectionsHierarchy roots), StripFixed c)
    (hf : ∀ f ∈ stack, FrameStripped f) :
    (∀ c ∈ sectionContents
        (flattenSectionsHierarchy (popStack level roots stack).1),
      StripFixed c) ∧
      ∀ f ∈ (popStack level roots stack).2, FrameStripped f := by
  cases stack with
  | nil => exact ⟨hr, by simp [popStack]⟩
  | cons f rest =>
    by_cases hle : level ≤ f.level
    · rw [popStack, if_pos hle]
      apply popAux_stripped level rest roots f.close hr
        (fun x hx => hf x (List.mem_cons_of_mem _ hx))
      intro c hc
      rw [sectionContents_flattenOne_close] at hc
      rcases List.mem_append.mp hc with h | h
      · exact (hf f (List.mem_cons_self _ _)).1 c h
      · exact (hf f (List.mem_cons_self _ _)).2 c h
    · rw [popStack, if_neg hle]
      exact ⟨hr, hf⟩

theorem save_stripped (stack : List Frame) (cur : List (List Char))
    (hstack : ∀ f ∈ stack, FrameStripped f)
    (hcur : ∀ c ∈ cur, StripFixed c) :
    ∀ f ∈ saveCurrentContent stack cur, FrameStripped f := by
  cases stack with
  | nil => simp [saveCurrentContent]
  | cons f rest =>
    simp only [saveCurrentContent]
    split_ifs with h1 h2
    · exact hstack
    · exact hstack
    · intro x hx
      rcases List.mem_cons.mp hx with rfl | hm
      · refine ⟨?_, (hstack f (List.mem_cons_self _ _)).2⟩
        intro c hc
        rcases List.mem_append.mp hc with h | h
        · exact (hstack f (List.mem_cons_self _ _)).1 c h
        · exact hcur c (List.mem_of_mem_filter h)
      · exact hstack _ (List.mem_cons_of_mem _ hm)

theorem processLine_stripped (st : PState) (l : List Char)
    (h : StateStripped st) : StateStripped (processLine st l) := by
  obtain ⟨hcur, hstack, hsec⟩ := h
  simp only [processLine]
  by_cases hb : (pyStrip l).isEmpty
  · rw [if_pos hb]
    split_ifs
    · exact ⟨hcur, hstack, hsec⟩
    · refine ⟨?_, hstack, hsec⟩
      intro c hc
      rcases List.mem_append.mp hc with h | h
      · exact hcur c h
      · rw [List.mem_singleton.mp h]
        rfl
  · rw [if_neg hb]
    cases hc : classifyLine (pyStrip l) with
    | none =>
      refine ⟨?_, hstack, hsec⟩
      intro c hcm
      rcases List.mem_append.mp hcm with h | h
      · exact hcur c h
      · rw [List.mem_singleton.mp h]
        exact pyStrip_idem l
    | some lt =>
      simp only [startSection, addSectionToHierarchy]
      have hsave := save_stripped st.stack st.current hstack hcur
      have hpop := popStack_stripped lt.1 st.sections
        (saveCurrentContent st.stack st.current) hsec hsave
      refine ⟨by simp, ?_, hpop.1⟩
      intro f hfm
      rcases List.mem_cons.mp hfm with rfl | hm
      · exact ⟨by simp, by simp [secListContents, flattenSecList, sectionContents]⟩
      · exact hpop.2 _ hm

theorem foldl_stripped (ls : List (List Char)) :
    ∀ st : PState, StateStripped st →
      StateStripped (ls.foldl processLine st) := by
  induction ls with
  | nil => intro st h; exact h
  | cons l rest ih =>
    intro st h
    rw [List.foldl_cons]
    exact ih _ (processLine_stripped st l h)

theorem parse_stripped (text : List Char) :
    ∀ c ∈ sectionContents (flattenSectionsHierarchy (parseForest text)),
      StripFixed c := by
  have hinit : StateStripped ⟨[], [], []⟩ := by
    refine ⟨by simp, by simp, ?_⟩
    simp [flattenSectionsHierarchy, sectionContents]
  have hfold := foldl_stripped (splitLines text) _ hinit
  obtain ⟨hcur, hstack, hsec⟩ := hfold
  unfold parseForest finishState
  have hsave := save_stripped _ _ hstack hcur
  exact (popStack_stripped 0 _ _ hsec hsave).1

/-!
## Concrete-scenario claims
-/

/-- C1, counterexample.  On the input
`"# Intro\n\nHello\n\n## Setup\n\n1. Install\n2. Run\n"` hierarchical
structuring does not produce exactly one root section: the numbered lines
match the `^\d+\.\s+.+$` header pattern and become level-1 sections, so
there are three roots. -/
theorem C1_counterexample :
    (parseForest "# Intro\n\nHello\n\n## Setup\n\n1. Install\n2. Run\n".data).length ≠ 1 := by
  decide

/-- C1, amended.  On that input the roots are `[Intro, "1. Install",
"2. Run"]`; `Intro` has child list `[Setup]` and content `["Hello"]`;
`Setup` has empty content — the numbered lines are classified as level-1
numbered headings (closing every open section), not as content. -/
theorem C1_amended :
    parseForest "# Intro\n\nHello\n\n## Setup\n\n1. Install\n2. Run\n".data =
      [Sec.mk "section_0".data "Intro".data 1 ["Hello".data]
         (.cons (.mk "section_1".data "Setup".data 2 [] .nil .nil) .nil) .nil,
       Sec.mk "section_1".data "1. Install".data 1 [] .nil .nil,
       Sec.mk "section_2".data "2. Run".data 1 [] .nil .nil] := rfl

/-- C2: evaluation of the code at the failing input.  For the lines
`["# A", "line1", "", "line2", "## B", "line3"]` the code stores
`A.content == ["line1", "line2"]`: the comprehension in
`_save_current_content` (converter.py line 346) filters out every blank
line, internal ones included, although its own comment says
"Filter out empty lines at start/end". -/
theorem C2_code_eval :
    parseForest "# A\nline1\n\nline2\n## B\nline3".data =
      [Sec.mk "section_0".data "A".data 1 ["line1".data, "line2".data]
         (.cons (.mk "section_1".data "B".data 2 ["line3".data] .nil .nil) .nil)
         .nil] := rfl

/-- C3, counterexample.  For `"intro line\n# A\nbody"` no produced section
holds `"intro line"` (`_save_current_content` returns without saving when
the stack is empty, converter.py line 339), and a text with no headings at
all yields an empty section list instead of a preamble section holding all
lines. -/
theorem C3_counterexample :
    (parseHierarchicalSections "intro line\n# A\nbody".data).all
        (fun s => !(s.content.contains "intro line".data)) = true ∧
      parseForest "just some text\nno headings".data = [] := ⟨rfl, rfl⟩

/-- C4: evaluation of the code at the failing input.  For
`"# A\n## B\n# C"` the flattened sections carry the ids
`section_0, section_1, section_1`: ids are rendered from `len(sections)`,
which counts only root sections, so the nested `B` and the root `C`
collide — ids are not pairwise distinct. -/
theorem C4_code_eval :
    (parseHierarchicalSections "# A\n## B\n# C".data).map Sec.id =
      ["section_0".data, "section_1".data, "section_1".data] := rfl

/-- C5, confirmed.  For the lines `["# A", "## B", "## C", "# D"]` the
roots are `[A, D]` in order, `A`'s child list is `[B, C]` in order, and
`B`, `C`, `D` have empty child lists: each new heading of level `L` pops
every open section of level `≥ L` before the new section is attached. -/
theorem C5_level_popping :
    parseForest "# A\n## B\n## C\n# D".data =
      [Sec.mk "section_0".data "A".data 1 []
         (.cons (.mk "section_1".data "B".data 2 [] .nil .nil)
           (.cons (.mk "section_1".data "C".data 2 [] .nil .nil) .nil)) .nil,
       Sec.mk "section_1".data "D".data 1 [] .nil .nil] := rfl

/-- C7, counterexample.  A line of seven `#` followed by a space and text
is not accepted as a heading: `#{1,6}` cannot match a hash run of length
7 (backtracking always leaves the next character a `#`), so
`"####### hello"` is classified as content and stored verbatim in the
preceding section. -/
theorem C7_counterexample :
    classifyLine "####### hello".data = none ∧
      (parseForest "# A\n####### hello".data).map Sec.content =
        [["####### hello".data]] := ⟨rfl, rfl⟩

/-- C7, amended.  A line whose leading `#` run is longer than 6 never
matches the markup-heading pattern (no capping takes place), and unless
the ALL-CAPS heuristic accepts it, it is classified as ordinary content. -/
theorem C7_amended (line : List Char)
    (h : 7 ≤ (line.takeWhile (· == '#')).length) :
    mdHeading line = none ∧
      (pyIsUpper line = false → classifyLine line = none) := by
  have hk : ¬(1 ≤ (line.takeWhile (fun c => c == '#')).length ∧
      (line.takeWhile (fun c => c == '#')).length ≤ 6) := by
    omega
  have hmd : mdHeading line = none := by
    simp only [mdHeading]
    rw [if_neg hk]
  refine ⟨hmd, fun hup => ?_⟩
  obtain ⟨rest, hrest⟩ : ∃ rest, line = '#' :: rest := by
    cases line with
    | nil => simp [List.takeWhile] at h
    | cons c cs =>
      by_cases hc : c = '#'
      · exact ⟨cs, by rw [hc]⟩
      · exfalso
        have hb : (c == '#') = false := beq_eq_false_iff_ne.mpr hc
        simp [List.takeWhile, hb] at h
  have hdig : Char.isDigit '#' = false := by decide
  have hnum : numberedHeading line = false := by
    subst hrest
    simp [numberedHeading, List.takeWhile, hdig]
  have hcaps : allCapsTitle line = false := by
    simp [allCapsTitle, hup]
  simp [classifyLine, hmd, hnum, hcaps]

/-- C7, witness for the amended theorem at the line `"####### Hello"`. -/
theorem C7_amended_witness :
    (7 ≤ ("####### Hello".data.takeWhile (· == '#')).length) ∧
      (mdHeading "####### Hello".data = none ∧
        (pyIsUpper "####### Hello".data = false →
          classifyLine "####### Hello".data = none)) :=
  ⟨by decide, C7_amended "####### Hello".data (by decide)⟩

/-- C8, confirmed.  `convert_to_yaml` reports the explicit "no content"
failure signal exactly when the extracted text is empty — structuring is
not attempted on an empty string — and a non-empty text without headings
still yields a (sectionless) success value, so the two cases are
distinguishable by the caller. -/
theorem C8_empty_input :
    (∀ text : List Char, convertToYaml text = none ↔ text = []) ∧
      convertToYaml "plain text with no headings".data = some [] := by
  constructor
  · intro text
    cases text with
    | nil => simp [convertToYaml]
    | cons c cs => simp [convertToYaml]
  · rfl


/-- C9: evaluation of the code at the failing input
`"# A\ntext\n# B\nyou should x"`.  The single best-practice item (the
`"should"` hit on the last line, which belongs to section `B`) records
`source_section_id == "section_2"` — the *line index* of the `"# B"`
heading — while the sections of the document carry the ids `section_0`
and `section_1`; the recorded id matches no section at all, so it cannot
equal the id of the section the item was extracted from. -/
theorem C9_code_eval :
    ((extractBestPracticesAndExamples c9text
        (parseHierarchicalSections c9text)).1.map
      (fun it => it.source_section_id)) = [some "section_2".data] ∧
      (parseHierarchicalSections c9text).map Sec.id =
        ["section_0".data, "section_1".data] := ⟨rfl, rfl⟩

/-- C3, amended.  Content before the first heading is silently dropped:
`_save_current_content` saves nothing while the stack is empty, so when no
line of the input is accepted by the heading classifier the parse produces
the empty section list — there is no preamble section of any kind. -/
theorem C3_amended (text : List Char)
    (h : ∀ l ∈ splitLines text, classifyLine (pyStrip l) = none) :
    parseForest text = [] ∧ parseHierarchicalSections text = [] := by
  have hf := foldl_no_heading (splitLines text) ⟨[], [], []⟩ h
  have h1 : parseForest text = [] := by
    unfold parseForest finishState
    rw [hf.1, hf.2, saveCurrentContent_nil]
    rfl
  refine ⟨h1, ?_⟩
  unfold parseHierarchicalSections
  rw [h1]
  rfl

/-- C3, witness for the amended theorem on a two-line heading-free text. -/
theorem C3_amended_witness :
    (∀ l ∈ splitLines "just some text\nno headings".data,
        classifyLine (pyStrip l) = none) ∧
      (parseForest "just some text\nno headings".data = [] ∧
        parseHierarchicalSections "just some text\nno headings".data = []) :=
  ⟨by decide, C3_amended "just some text\nno headings".data (by decide)⟩

/-- C6, confirmed.  For every input text, the flattened view produced by
`_flatten_sections_hierarchy` — by construction the depth-first,
children-after-parent-before-next-sibling traversal of the forest —
enumerates the sections, with their levels and titles, in exactly the
order in which the heading classifier accepts lines scanning the text top
to bottom; and its first element is the first root. -/
theorem C6_order_preservation (text : List Char) :
    (parseHierarchicalSections text).map (fun s => (s.level, s.title)) =
      headingInfos (splitLines text) ∧
      (parseHierarchicalSections text).head? = (parseForest text).head? := by
  constructor
  · show secInfos (parseForest text) = _
    unfold parseForest
    rw [secInfos_finishState, stateInfos_foldl]
    simp [stateInfos, secInfos, stackInfos, flattenSectionsHierarchy]
  · exact flattenHier_head? _

/-- C10, confirmed.  Every line is stripped before classification and
before storage: processing a raw line is the same as processing its
stripped form (so an indented heading is still recognised), and every
content line stored in any section of the final structure is a strip fixed
point — original indentation never survives into section content. -/
theorem C10_line_stripping :
    (∀ (st : PState) (l : List Char),
        processLine st (pyStrip l) = processLine st l) ∧
      ∀ (text c : List Char),
        c ∈ sectionContents (parseHierarchicalSections text) → pyStrip c = c := by
  constructor
  · intro st l
    simp only [processLine, pyStrip_idem]
  · intro text c hc
    exact parse_stripped text c hc

/-- C10, witness: the indented content line `"  hello  "` under the header
`"# A"` is stored as the stripped `"hello"`, a strip fixed point. -/
theorem C10_line_stripping_witness :
    ("hello".data ∈
        sectionContents (parseHierarchicalSections "# A\n  hello  ".data)) ∧
      pyStrip "hello".data = "hello".data :=
  ⟨by decide,
   C10_line_stripping.2 "# A\n  hello  ".data "hello".data (by decide)⟩

end Janusz
